import Mathlib

/-!
Verification of the symbol-encoder core of `src/ml_models/data_type_conversions.py`
(repository VishwamAI/tensorflow-experiments).

The embedded code is:

* the module-level vocabulary constants `_pad`, `_eos`, `_punctuation`,
  `_special`, `_letters` and `ALL_SYMBOLS` (lines 12-21);
* class `Processor`: its constructor builds `symbol_to_id` as the Python dict
  `{s: i for i, s in enumerate(ALL_SYMBOLS)}` and `text_to_sequence` maps each
  character of the input to `symbol_to_id.get(s, symbol_to_id[_pad])`
  (lines 23-28);
* the fixed-length framing `input_ids[:9] + [0] * (9 - len(input_ids))` inside
  `DataTypeConversions.text_to_audio` (line 204).

Python strings are modelled as Lean `String`; iterating a Python string yields
one-character strings, modelled with `String.singleton` over `String.data`.
A Python dict built by a comprehension over `enumerate` keeps, for a duplicated
key, the last value inserted; `dictGet` below reproduces exactly that
last-insertion-wins semantics for a single query.
-/

namespace DataTypeConversions

def pad_sym : String := "pad"

def eos_sym : String := "eos"

def punctuation : String := "!'(),.? "

def special : String := "-"

def letters : String := "ABCDEFGHIJKLMNOPQRSTUVWXYZabcdefghijklmnopqrstuvwxyz"

/-- `ALL_SYMBOLS = [_pad] + list(_special) + list(_punctuation) + list(_letters) + [_eos]`
(source lines 19-21).  Python `list` of a string is its characters as
one-character strings. -/
def ALL_SYMBOLS : List String :=
  [pad_sym] ++ special.data.map String.singleton
    ++ punctuation.data.map String.singleton
    ++ letters.data.map String.singleton ++ [eos_sym]

/-- The value a Python dict built as `{s: i for i, s in enumerate(...)}` holds
at key `s`: the last pair whose key equals `s` wins; `none` when `s` was never
inserted. -/
def dictGet (pairs : List (Nat × String)) (s : String) : Option Nat :=
  pairs.foldl (fun acc p => if p.2 = s then some p.1 else acc) none

/-- The `Processor` class (source lines 23-28).  Its only state is the
`symbol_to_id` dict built in `__init__`, modelled as the lookup function the
dict denotes. -/
structure Processor where
  symbol_to_id : String → Option Nat

/-- `Processor.__init__` (lines 24-25): `self.symbol_to_id = {s: i for i, s in
enumerate(ALL_SYMBOLS)}`. -/
def Processor.init : Processor :=
  ⟨fun s => dictGet ALL_SYMBOLS.enum s⟩

/-- `Processor.text_to_sequence` (lines 27-28):
`[self.symbol_to_id.get(s, self.symbol_to_id[_pad]) for s in text]`.
The default of the `get` is the dict's entry at `_pad`; `_pad` is always
present in a freshly built dict, so the plain indexing never raises, and we
read it through the same lookup (with an inert fallback of `0` required to
make the partial dict indexing total). -/
def Processor.text_to_sequence (p : Processor) (text : String) : List Nat :=
  text.data.map
    (fun c => (p.symbol_to_id (String.singleton c)).getD ((p.symbol_to_id pad_sym).getD 0))

/-- The symbol table of a processor constructed at line 25. -/
def symbol_to_id (s : String) : Option Nat :=
  Processor.init.symbol_to_id s

/-- Encoding with a freshly constructed `Processor`, as `text_to_audio` does at
lines 200-201. -/
def text_to_sequence (text : String) : List Nat :=
  Processor.init.text_to_sequence text

/-- The fixed-length framing applied in `text_to_audio` (line 204):
`input_ids[:9] + [0] * (9 - len(input_ids))`.  Python `[0] * n` with `n ≤ 0`
is empty, matching truncated `Nat` subtraction. -/
def frame9 (input_ids : List Nat) : List Nat :=
  input_ids.take 9 ++ List.replicate (9 - input_ids.length) 0

/-! ### Generic facts about the last-insertion-wins dict lookup -/

theorem foldl_lookup_eq_acc (s : String) (pairs : List (Nat × String)) (acc : Option Nat)
    (h : ∀ p ∈ pairs, p.2 ≠ s) :
    pairs.foldl (fun a p => if p.2 = s then some p.1 else a) acc = acc := by
  induction pairs generalizing acc with
  | nil => rfl
  | cons q rest ih =>
      have hq : q.2 ≠ s := h q (List.mem_cons_self q rest)
      simp only [List.foldl_cons, if_neg hq]
      exact ih acc (fun p hp => h p (List.mem_cons_of_mem q hp))

theorem foldl_lookup_eq_some (s : String) (pairs : List (Nat × String)) (acc : Option Nat)
    (i : Nat)
    (h : pairs.foldl (fun a p => if p.2 = s then some p.1 else a) acc = some i) :
    (i, s) ∈ pairs ∨ acc = some i := by
  induction pairs generalizing acc with
  | nil => exact Or.inr h
  | cons q rest ih =>
      simp only [List.foldl_cons] at h
      rcases ih _ h with hmem | hacc
      · exact Or.inl (List.mem_cons_of_mem q hmem)
      · by_cases hq : q.2 = s
        · left
          obtain ⟨a, b⟩ := q
          simp only at hq
          subst hq
          rw [if_pos rfl] at hacc
          obtain rfl : a = i := Option.some.inj hacc
          exact List.mem_cons_self _ _
        · rw [if_neg hq] at hacc
          exact Or.inr hacc

theorem foldl_lookup_complete (s : String) (pairs : List (Nat × String)) (acc : Option Nat)
    (i : Nat) (hmem : (i, s) ∈ pairs) (huniq : ∀ j, (j, s) ∈ pairs → j = i) :
    pairs.foldl (fun a p => if p.2 = s then some p.1 else a) acc = some i := by
  induction pairs generalizing acc with
  | nil => cases hmem
  | cons q rest ih =>
      simp only [List.foldl_cons]
      by_cases hrest : (i, s) ∈ rest
      · exact ih _ hrest (fun j hj => huniq j (List.mem_cons_of_mem q hj))
      · have hq : q = (i, s) := by
          rcases List.mem_cons.mp hmem with h | h
          · exact h.symm
          · exact absurd h hrest
        subst hq
        rw [if_pos rfl]
        apply foldl_lookup_eq_acc
        intro p hp hps
        have hmem2 : (p.1, s) ∈ rest := by
          have : p = (p.1, s) := by
            obtain ⟨a, b⟩ := p
            simp only at hps
            rw [hps]
          rw [← this]
          exact hp
        have hpi : p.1 = i := huniq p.1 (List.mem_cons_of_mem _ hmem2)
        apply hrest
        rw [← hpi]
        exact hmem2

/-! ### Facts about the concrete vocabulary and lookup -/

theorem ALL_SYMBOLS_nodup : ALL_SYMBOLS.Nodup := by decide

theorem getElem?_some_lt {α : Type} (l : List α) (i : Nat) (a : α) (h : l[i]? = some a) :
    i < l.length := by
  by_contra hge
  rw [List.getElem?_eq_none (Nat.le_of_not_lt hge)] at h
  cases h

theorem symbol_to_id_some_iff (s : String) (i : Nat) :
    symbol_to_id s = some i ↔ ALL_SYMBOLS[i]? = some s := by
  constructor
  · intro h
    rcases foldl_lookup_eq_some s ALL_SYMBOLS.enum none i h with hmem | hacc
    · exact List.mk_mem_enum_iff_getElem?.mp hmem
    · cases hacc
  · intro h
    apply foldl_lookup_complete
    · exact List.mk_mem_enum_iff_getElem?.mpr h
    · intro j hj
      have hj2 := List.mk_mem_enum_iff_getElem?.mp hj
      exact List.getElem?_inj (getElem?_some_lt _ j _ hj2) ALL_SYMBOLS_nodup (hj2.trans h.symm)

theorem symbol_to_id_none_iff (s : String) :
    symbol_to_id s = none ↔ s ∉ ALL_SYMBOLS := by
  constructor
  · intro h hmem
    obtain ⟨i, hi⟩ := List.getElem?_of_mem hmem
    rw [(symbol_to_id_some_iff s i).mpr hi] at h
    cases h
  · intro hmem
    cases hcase : symbol_to_id s with
    | none => rfl
    | some i =>
        have hget := (symbol_to_id_some_iff s i).mp hcase
        exact absurd (List.getElem?_mem hget) hmem

theorem symbol_to_id_pad : symbol_to_id pad_sym = some 0 := by decide

theorem text_to_sequence_eq_map (text : String) :
    text_to_sequence text
      = text.data.map (fun c => (symbol_to_id (String.singleton c)).getD 0) := by
  have hpad : Processor.init.symbol_to_id pad_sym = some 0 := symbol_to_id_pad
  simp only [text_to_sequence, Processor.text_to_sequence, hpad, Option.getD_some]
  rfl

theorem text_to_sequence_getElem? (text : String) (i : Nat) (c : Char)
    (h : text.data[i]? = some c) :
    (text_to_sequence text)[i]? = some ((symbol_to_id (String.singleton c)).getD 0) := by
  rw [text_to_sequence_eq_map]
  simp [List.getElem?_map, h]

theorem mem_text_to_sequence (text : String) (id : Nat) (h : id ∈ text_to_sequence text) :
    ∃ c ∈ text.data, (symbol_to_id (String.singleton c)).getD 0 = id := by
  rw [text_to_sequence_eq_map] at h
  exact List.mem_map.mp h

theorem singleton_ne_pad (c : Char) : String.singleton c ≠ pad_sym := by
  intro h
  have hlen := congrArg String.length h
  rw [show (String.singleton c).length = 1 from rfl,
    show pad_sym.length = 3 by decide] at hlen
  exact absurd hlen (by decide)

theorem singleton_ne_eos (c : Char) : String.singleton c ≠ eos_sym := by
  intro h
  have hlen := congrArg String.length h
  rw [show (String.singleton c).length = 1 from rfl,
    show eos_sym.length = 3 by decide] at hlen
  exact absurd hlen (by decide)

theorem lookup_singleton_bounds (c : Char) (i : Nat)
    (h : symbol_to_id (String.singleton c) = some i) :
    i ≠ 0 ∧ i ≠ ALL_SYMBOLS.length - 1 := by
  have hget := (symbol_to_id_some_iff _ i).mp h
  constructor
  · rintro rfl
    rw [show (ALL_SYMBOLS[0]? : Option String) = some pad_sym by decide] at hget
    exact singleton_ne_pad c (Option.some.inj hget).symm
  · rintro rfl
    rw [show ALL_SYMBOLS.length - 1 = 62 by decide] at hget
    rw [show (ALL_SYMBOLS[62]? : Option String) = some eos_sym by decide] at hget
    exact singleton_ne_eos c (Option.some.inj hget).symm

theorem encode_value_lt (c : Char) :
    (symbol_to_id (String.singleton c)).getD 0 < ALL_SYMBOLS.length := by
  cases hcase : symbol_to_id (String.singleton c) with
  | none =>
      simp only [Option.getD_none]
      decide
  | some i =>
      simp only [Option.getD_some]
      exact getElem?_some_lt _ i _ ((symbol_to_id_some_iff _ i).mp hcase)

theorem encode_id_lt (text : String) (id : Nat) (h : id ∈ text_to_sequence text) :
    id < ALL_SYMBOLS.length := by
  obtain ⟨c, _, hval⟩ := mem_text_to_sequence text id h
  rw [← hval]
  exact encode_value_lt c

/-! ### The claims -/

/-- Claim C1: for every character `c` in the declared vocabulary (pad,
then `-`, then the punctuation/space characters, then the 52 Latin letters,
then eos), encoding the one-character string `[c]` yields the single ID equal
to `c`'s 0-based position in that concatenation. -/
theorem encode_vocab_char_position (c : Char) (i : Nat)
    (h : ALL_SYMBOLS[i]? = some (String.singleton c)) :
    text_to_sequence (String.singleton c) = [i] := by
  have hlook : symbol_to_id (String.singleton c) = some i :=
    (symbol_to_id_some_iff _ i).mpr h
  rw [text_to_sequence_eq_map, show (String.singleton c).data = [c] from rfl]
  simp [hlook]

theorem encode_vocab_char_position_witness :
    ALL_SYMBOLS[10]? = some (String.singleton 'A')
      ∧ text_to_sequence (String.singleton 'A') = [10] :=
  ⟨by decide, encode_vocab_char_position 'A' 10 (by decide)⟩

/-- Claim C2: an out-of-vocabulary character is encoded as the padding ID `0`:
`encode([c]) = [0]` for `c` outside the vocabulary, and in any input string
every out-of-vocabulary character maps to ID `0` at its position.  The encoder
is a total function on strings (it never raises or skips a character). -/
theorem encode_oov_char_to_pad (c : Char)
    (hoov : String.singleton c ∉ ALL_SYMBOLS) :
    text_to_sequence (String.singleton c) = [0]
      ∧ ∀ (text : String) (i : Nat), text.data[i]? = some c →
          (text_to_sequence text)[i]? = some 0 := by
  have hnone : symbol_to_id (String.singleton c) = none :=
    (symbol_to_id_none_iff _).mpr hoov
  constructor
  · rw [text_to_sequence_eq_map, show (String.singleton c).data = [c] from rfl]
    simp [hnone]
  · intro text i hi
    rw [text_to_sequence_getElem? text i c hi, hnone]
    rfl

theorem encode_oov_char_to_pad_witness :
    String.singleton '1' ∉ ALL_SYMBOLS ∧ text_to_sequence (String.singleton '1') = [0] :=
  ⟨by decide, (encode_oov_char_to_pad '1' (by decide)).1⟩

/-- Claim C3: the encoded output has exactly the length of the input string,
and the empty string encodes to the empty list. -/
theorem encode_length_preserved :
    (∀ text : String, (text_to_sequence text).length = text.length)
      ∧ text_to_sequence "" = [] := by
  constructor
  · intro text
    rw [text_to_sequence_eq_map, List.length_map]
    rfl
  · rfl

/-- Claim C4: the fixed-length framing of `text_to_audio` always yields exactly
9 IDs: inputs of length at least 9 are truncated to their first 9 IDs, shorter
inputs are extended with trailing `0`s (the padding ID) up to length 9; in
particular a length-12 input keeps its first 9 IDs and a length-5 input gains
four trailing zeros. -/
theorem frame9_spec :
    (∀ ids : List Nat, (frame9 ids).length = 9)
      ∧ (∀ ids : List Nat, 9 ≤ ids.length → frame9 ids = ids.take 9)
      ∧ (∀ ids : List Nat, ids.length ≤ 9 →
          frame9 ids = ids ++ List.replicate (9 - ids.length) 0)
      ∧ frame9 [1, 2, 3, 4, 5, 6, 7, 8, 9, 10, 11, 12] = [1, 2, 3, 4, 5, 6, 7, 8, 9]
      ∧ frame9 [1, 2, 3, 4, 5] = [1, 2, 3, 4, 5, 0, 0, 0, 0] := by
  refine ⟨?_, ?_, ?_, by decide, by decide⟩
  · intro ids
    simp only [frame9, List.length_append, List.length_take, List.length_replicate]
    omega
  · intro ids h
    simp only [frame9, show 9 - ids.length = 0 by omega, List.replicate_zero,
      List.append_nil]
  · intro ids h
    simp only [frame9, List.take_of_length_le h]

theorem frame9_spec_witness :
    9 ≤ ([1, 2, 3, 4, 5, 6, 7, 8, 9, 10, 11, 12] : List Nat).length
      ∧ frame9 [1, 2, 3, 4, 5, 6, 7, 8, 9, 10, 11, 12]
          = ([1, 2, 3, 4, 5, 6, 7, 8, 9, 10, 11, 12] : List Nat).take 9 :=
  ⟨by decide, frame9_spec.2.1 [1, 2, 3, 4, 5, 6, 7, 8, 9, 10, 11, 12] (by decide)⟩

/-- Claim C5: with the vocabulary as built (pad at 0, `-` at 1, the eight
punctuation/space symbols at 2-9, letters from `A` = 10 to `Z` = 35),
`encode("A") = [10]` and `encode("Z1") = [35, 0]`. -/
theorem encode_concrete_scenarios :
    text_to_sequence "A" = [10]
      ∧ text_to_sequence "Z1" = [35, 0]
      ∧ ALL_SYMBOLS[0]? = some pad_sym
      ∧ ALL_SYMBOLS[1]? = some "-"
      ∧ ALL_SYMBOLS[10]? = some "A"
      ∧ ALL_SYMBOLS[35]? = some "Z" := by
  decide

/-- Claim C6: every ID produced by the encoder is a valid index into the
vocabulary, i.e. lies in `[0, vocabulary_size)`. -/
theorem encode_ids_in_range (text : String) (id : Nat)
    (h : id ∈ text_to_sequence text) :
    id < ALL_SYMBOLS.length :=
  encode_id_lt text id h

theorem encode_ids_in_range_witness :
    10 ∈ text_to_sequence "A" ∧ 10 < ALL_SYMBOLS.length :=
  ⟨by decide, encode_ids_in_range "A" 10 (by decide)⟩

/-- Claim C7: the symbol-to-ID mapping is one-to-one over the vocabulary: the
vocabulary has no duplicate symbols, every vocabulary symbol has an ID, looking
an assigned ID back up in the ordered vocabulary returns the same symbol, and
distinct symbols never share an ID. -/
theorem symbol_to_id_bijective :
    ALL_SYMBOLS.Nodup
      ∧ (∀ s ∈ ALL_SYMBOLS, ∃ i, symbol_to_id s = some i)
      ∧ (∀ (s : String) (i : Nat), symbol_to_id s = some i → ALL_SYMBOLS[i]? = some s)
      ∧ (∀ (s t : String) (i : Nat),
          symbol_to_id s = some i → symbol_to_id t = some i → s = t) := by
  refine ⟨ALL_SYMBOLS_nodup, ?_, ?_, ?_⟩
  · intro s hs
    obtain ⟨i, hi⟩ := List.getElem?_of_mem hs
    exact ⟨i, (symbol_to_id_some_iff s i).mpr hi⟩
  · intro s i h
    exact (symbol_to_id_some_iff s i).mp h
  · intro s t i hs ht
    have h1 := (symbol_to_id_some_iff s i).mp hs
    have h2 := (symbol_to_id_some_iff t i).mp ht
    exact Option.some.inj (h1.symm.trans h2)

theorem symbol_to_id_bijective_witness :
    symbol_to_id pad_sym = some 0 ∧ ALL_SYMBOLS[0]? = some pad_sym :=
  ⟨by decide, symbol_to_id_bijective.2.2.1 pad_sym 0 (by decide)⟩

/-- Claim C8: encoding is deterministic and side-effect free: any two
processors built by the constructor carry identical symbol-to-ID tables and
encode every text identically, and repeated calls on one processor agree (the
processor's state, being immutable in the embedding of the method body, is
untouched by a call). -/
theorem processor_deterministic :
    (∀ p q : Processor, p = Processor.init → q = Processor.init →
      (∀ s, p.symbol_to_id s = q.symbol_to_id s)
        ∧ (∀ text, p.text_to_sequence text = q.text_to_sequence text))
      ∧ (∀ (p : Processor) (text : String),
          p.text_to_sequence text = p.text_to_sequence text) := by
  refine ⟨?_, fun p text => rfl⟩
  rintro p q rfl rfl
  exact ⟨fun s => rfl, fun text => rfl⟩

theorem processor_deterministic_witness :
    Processor.init = Processor.init
      ∧ Processor.init.text_to_sequence "A" = Processor.init.text_to_sequence "A" :=
  ⟨rfl, (processor_deterministic.1 Processor.init Processor.init rfl rfl).2 "A"⟩

/-- Claim C9: because the sentinels are the multi-character strings "pad" and
"eos", which no single character can equal, the encoder emits ID `0` at a
position exactly when the character there is out-of-vocabulary, and it never
emits the end-of-sequence ID (the last vocabulary position). -/
theorem encode_zero_iff_oov :
    (∀ (text : String) (i : Nat) (c : Char), text.data[i]? = some c →
      ((text_to_sequence text)[i]? = some 0 ↔ String.singleton c ∉ ALL_SYMBOLS))
      ∧ (∀ (text : String) (id : Nat), id ∈ text_to_sequence text →
          id ≠ ALL_SYMBOLS.length - 1) := by
  constructor
  · intro text i c hc
    rw [text_to_sequence_getElem? text i c hc]
    cases hcase : symbol_to_id (String.singleton c) with
    | none =>
        simp only [Option.getD_none, true_iff]
        exact (symbol_to_id_none_iff _).mp hcase
    | some j =>
        have hj := (lookup_singleton_bounds c j hcase).1
        have hmem : String.singleton c ∈ ALL_SYMBOLS :=
          List.getElem?_mem ((symbol_to_id_some_iff _ j).mp hcase)
        simp only [Option.getD_some, Option.some.injEq]
        constructor
        · intro h
          exact absurd h hj
        · intro h
          exact absurd hmem h
  · intro text id h
    obtain ⟨c, _, hval⟩ := mem_text_to_sequence text id h
    cases hcase : symbol_to_id (String.singleton c) with
    | none =>
        rw [hcase] at hval
        simp only [Option.getD_none] at hval
        rw [← hval]
        decide
    | some j =>
        rw [hcase] at hval
        simp only [Option.getD_some] at hval
        rw [← hval]
        exact (lookup_singleton_bounds c j hcase).2

theorem encode_zero_iff_oov_witness :
    ("Z1".data[1]? = some '1')
      ∧ ((text_to_sequence "Z1")[1]? = some 0 ↔ String.singleton '1' ∉ ALL_SYMBOLS) :=
  ⟨by decide, encode_zero_iff_oov.1 "Z1" 1 '1' (by decide)⟩

/-- Claim C10: the vocabulary has exactly 63 symbols (1 pad + 1 special + 8
punctuation/space + 52 letters + 1 eos), the end-of-sequence sentinel sits at
ID 62, and every ID the encoder produces lies in `[0, 63)`. -/
theorem vocab_size_and_bounds :
    ALL_SYMBOLS.length = 63
      ∧ ALL_SYMBOLS[62]? = some eos_sym
      ∧ (∀ (text : String) (id : Nat), id ∈ text_to_sequence text → id < 63) := by
  refine ⟨by decide, by decide, ?_⟩
  intro text id h
  have := encode_id_lt text id h
  rwa [show ALL_SYMBOLS.length = 63 by decide] at this

theorem vocab_size_and_bounds_witness :
    10 ∈ text_to_sequence "A" ∧ 10 < 63 :=
  ⟨by decide, vocab_size_and_bounds.2.2 "A" 10 (by decide)⟩

end DataTypeConversions
